import Mathlib

/-!
Verification of a three-stage expression interpreter (scanner, recursive-descent
parser, tree-walking evaluator) written in Rust, as a shallow embedding in Lean.

Modelling conventions:
* Rust `f64` is modelled as `Rat`.  All number literals and the arithmetic in
  the claims below stay inside the range where IEEE double arithmetic is exact,
  so the rational model agrees with the source there.  IEEE-specific behaviour
  (NaN, infinities, division by zero, rounding) is outside the model.
* The Rust scanner mixes byte offsets (`source.len()`, slicing) with character
  offsets (`chars().nth`).  The embedding uses one cursor into the character
  list, which coincides with the source behaviour on ASCII input (on ASCII,
  byte index and character index agree); `char::is_alphanumeric` and
  `char::is_alphabetic` are likewise modelled by their ASCII restrictions.
* Fallible Rust functions returning `Result` become `Except Error`; `&mut self`
  methods become explicit state passing of the `Scanner` structure or of the
  parser cursor.
-/

/-- Shorthand used so that constructor payloads can refer to the ambient string
type even where a constructor of the same name is being declared. -/
abbrev Str := String

/-- Token kinds, from `scanner.rs` (`enum TokenType`).  `Identifier`, `String`
and `Number` carry their decoded payloads; `Number` carries the parsed numeric
value (`f64` in the source, modelled as `Rat`). -/
inductive TokenType where
  | LeftParen | RightParen | LeftBrace | RightBrace | Comma | Dot | Minus | Plus
  | Semicolon | Slash | Star
  | Bang | BangEqual | Equal | EqualEqual | Greater | GreaterEqual | Less | LessEqual
  | Identifier (s : Str)
  | String (s : Str)
  | Number (n : Rat)
  | And | Class | Else | False | Fun | For | If | Nil | Or | Print | Return
  | Super | This | True | Var | While
  | Eof
deriving Repr, DecidableEq

/-- Index of a token kind's discriminant, used to model
`std::mem::discriminant`: two kinds have the same index exactly when they are
built from the same constructor, payloads ignored. -/
def TokenType.discr : TokenType → Nat
  | .LeftParen => 0 | .RightParen => 1 | .LeftBrace => 2 | .RightBrace => 3
  | .Comma => 4 | .Dot => 5 | .Minus => 6 | .Plus => 7
  | .Semicolon => 8 | .Slash => 9 | .Star => 10
  | .Bang => 11 | .BangEqual => 12 | .Equal => 13 | .EqualEqual => 14
  | .Greater => 15 | .GreaterEqual => 16 | .Less => 17 | .LessEqual => 18
  | .Identifier _ => 19 | .String _ => 20 | .Number _ => 21
  | .And => 22 | .Class => 23 | .Else => 24 | .False => 25 | .Fun => 26
  | .For => 27 | .If => 28 | .Nil => 29 | .Or => 30 | .Print => 31
  | .Return => 32 | .Super => 33 | .This => 34 | .True => 35 | .Var => 36
  | .While => 37 | .Eof => 38

/-- From `scanner.rs`, `TokenType::matches`: discriminant-only comparison of two
token kinds (`discriminant(self) == discriminant(other)`). -/
def TokenType.matches (a other : TokenType) : Bool :=
  a.discr == other.discr

/-- From `scanner.rs`, the static `KEYWORDS` table (`phf_map`), as a lookup
function. -/
def KEYWORDS (s : Str) : Option TokenType :=
  match s with
  | "and" => some .And
  | "class" => some .Class
  | "else" => some .Else
  | "false" => some .False
  | "for" => some .For
  | "fun" => some .Fun
  | "if" => some .If
  | "nil" => some .Nil
  | "or" => some .Or
  | "print" => some .Print
  | "return" => some .Return
  | "super" => some .Super
  | "this" => some .This
  | "true" => some .True
  | "var" => some .Var
  | "while" => some .While
  | _ => none

/-- From `scanner.rs`, `struct Token`: kind, exact source substring, and the
line it was produced on. -/
structure Token where
  ty : TokenType
  lexeme : Str
  line : Nat
deriving Repr, DecidableEq

/-- Error type of the pipeline, from `error.rs` together with `interpret.rs`.
`error.rs` declares the `Syntax { line, message }` variant (rendered
`[line {line}] Error: {message}`), named `SyntaxError` here after the spec's
terminology.  `interpret.rs` additionally constructs an `Error::TypeError
{ line, message }` variant at its two failure sites; `error.rs` as given does
not declare that variant (so the crate as given does not compile — see claim
C1), and it is modelled here with exactly the fields used at those
construction sites.  The `IO` variant is omitted: it is produced only by the
external file-reading driver, never by scanning, parsing or evaluation. -/
inductive Error where
  | SyntaxError (line : Nat) (message : Str)
  | TypeError (line : Nat) (message : Str)
deriving Repr, DecidableEq

/-- From `scanner.rs`, `struct Scanner`: the source (as its character
sequence), the offsets `start` and `current`, and the current `line`. -/
structure Scanner where
  source : List Char
  start : Nat
  current : Nat
  line : Nat
deriving Repr, DecidableEq

/-- From `scanner.rs`, `Scanner::is_at_end`: `current >= source.len()`
(byte length in the source; character count in this ASCII-faithful model). -/
def Scanner.isAtEnd (s : Scanner) : Bool :=
  s.current ≥ s.source.length

/-- From `scanner.rs`, `Scanner::peek`: the character at `current`, or `'\0'`
past the end. -/
def Scanner.peek (s : Scanner) : Char :=
  s.source.getD s.current '\x00'

/-- From `scanner.rs`, `Scanner::peek_next`: the character at `current + 1`, or
`'\0'` past the end. -/
def Scanner.peekNext (s : Scanner) : Char :=
  s.source.getD (s.current + 1) '\x00'

/-- From `scanner.rs`, `Scanner::advance`: return the character at `current`
(if any) and increment `current`. -/
def Scanner.advance (s : Scanner) : Option Char × Scanner :=
  (s.source[s.current]?, { s with current := s.current + 1 })

/-- From `scanner.rs`, `Scanner::matches`: if not at the end and the character
at `current` is `expected`, consume it and report success. -/
def Scanner.matches (s : Scanner) (expected : Char) : Bool × Scanner :=
  if s.isAtEnd then (false, s)
  else
    match s.source[s.current]? with
    | some c => if c = expected then (true, { s with current := s.current + 1 }) else (false, s)
    | none => (false, s)

/-- From `scanner.rs`, `Scanner::current_lexeme`: the substring
`source[start..current]`. -/
def Scanner.currentLexeme (s : Scanner) : Str :=
  ⟨(s.source.drop s.start).take (s.current - s.start)⟩

/-- From `scanner.rs`, `Scanner::token`: build a token of the given kind from
the current lexeme at the current line (never fails). -/
def Scanner.token (s : Scanner) (ty : TokenType) : Except Error (Token × Scanner) :=
  .ok ({ ty := ty, lexeme := s.currentLexeme, line := s.line }, s)

/-- The comment-skipping loop inside `Scanner::scan_token`
(`while self.peek() != '\n' && !self.is_at_end()`). -/
def commentLoop (s : Scanner) : Scanner :=
  if s.peek != '\n' && !s.isAtEnd then commentLoop (s.advance).2 else s
termination_by s.source.length - s.current
decreasing_by
  rename_i h
  simp only [Scanner.isAtEnd, Bool.and_eq_true, Bool.not_eq_true',
    decide_eq_false_iff_not, ge_iff_le, not_le] at h
  simp only [Scanner.advance]
  omega

/-- The string-body loop inside `Scanner::string`
(`while self.peek() != '"' && !self.is_at_end()`), incrementing `line` at each
embedded newline. -/
def stringLoop (s : Scanner) : Scanner :=
  if s.peek != '"' && !s.isAtEnd then
    stringLoop (((if s.peek = '\n' then { s with line := s.line + 1 } else s)).advance).2
  else s
termination_by s.source.length - s.current
decreasing_by
  rename_i h
  simp only [Scanner.isAtEnd, Bool.and_eq_true, Bool.not_eq_true',
    decide_eq_false_iff_not, ge_iff_le, not_le] at h
  simp only [Scanner.advance]
  split <;> simp <;> omega

/-- A maximal digit run, as in the two `while self.peek().is_ascii_digit()`
loops of `Scanner::number`. -/
def digitLoop (s : Scanner) : Scanner :=
  if s.peek.isDigit then digitLoop (s.advance).2 else s
termination_by s.source.length - s.current
decreasing_by
  rename_i h
  have hc : s.current < s.source.length := by
    by_contra hn
    rw [Scanner.peek, List.getD_eq_default _ _ (Nat.le_of_not_lt hn)] at h
    exact absurd h (by decide)
  simp only [Scanner.advance]
  omega

/-- The identifier loop of `Scanner::identifier`
(`while self.peek().is_alphanumeric() || self.peek() == '_'`), with
`is_alphanumeric` modelled by its ASCII restriction. -/
def identLoop (s : Scanner) : Scanner :=
  if s.peek.isAlphanum || s.peek = '_' then identLoop (s.advance).2 else s
termination_by s.source.length - s.current
decreasing_by
  rename_i h
  have hc : s.current < s.source.length := by
    by_contra hn
    rw [Scanner.peek, List.getD_eq_default _ _ (Nat.le_of_not_lt hn)] at h
    exact absurd h (by decide)
  simp only [Scanner.advance]
  omega

/-- Value of a digit string, most significant digit first (the usual decimal
accumulation also performed by `str::parse`). -/
def digitsVal (ds : List Char) : Nat :=
  ds.foldl (fun n c => n * 10 + (c.toNat - '0'.toNat)) 0

/-- Models `str::parse::<f64>` as invoked by `Scanner::number`, with `f64` as
`Rat`.  `Scanner::number` only ever passes lexemes of the shape
`digits` or `digits '.' digits` (both digit runs non-empty); on those this
function returns their exact decimal value, and on anything else it returns
`none` (the source's defensive "Invalid number literal." path). -/
def parseNumber (cs : List Char) : Option Rat :=
  let intPart := cs.takeWhile Char.isDigit
  let rest := cs.dropWhile Char.isDigit
  if intPart.isEmpty then none
  else
    match rest with
    | [] => some (digitsVal intPart)
    | '.' :: frac =>
      if !frac.isEmpty && frac.all Char.isDigit then
        some ((digitsVal intPart : Rat) + (digitsVal frac : Rat) / (10 : Rat) ^ frac.length)
      else none
    | _ => none

/-- From `scanner.rs`, `Scanner::string`: consume up to the closing quote
(tracking embedded newlines in `line`); reaching the end first is a fatal
"Unterminated string." error at the *current* value of `line`; otherwise
consume the closing quote and emit a `String` token whose payload is the
lexeme stripped of its surrounding quotes. -/
def Scanner.string (s : Scanner) : Except Error (Token × Scanner) :=
  let s := stringLoop s
  if s.isAtEnd then .error (.SyntaxError s.line "Unterminated string.")
  else
    let s := (s.advance).2
    let lexeme := s.currentLexeme
    let literal : Str := ⟨(lexeme.toList.drop 1).take (lexeme.length - 2)⟩
    s.token (TokenType.String literal)

/-- From `scanner.rs`, `Scanner::number`: a maximal digit run, then a `'.'`
only when it is followed by a digit (in which case a further maximal digit
run), then the lexeme is parsed; an unparsable lexeme is a fatal
"Invalid number literal." error. -/
def Scanner.number (s : Scanner) : Except Error (Token × Scanner) :=
  let s := digitLoop s
  let s := if s.peek = '.' ∧ s.peekNext.isDigit then digitLoop (s.advance).2 else s
  match parseNumber s.currentLexeme.toList with
  | some n => s.token (TokenType.Number n)
  | none => .error (.SyntaxError s.line "Invalid number literal.")

/-- From `scanner.rs`, `Scanner::identifier`: a maximal alphanumeric/underscore
run, then a keyword-table lookup, falling back to an `Identifier` token. -/
def Scanner.identifier (s : Scanner) : Except Error (Token × Scanner) :=
  let s := identLoop s
  let ty := (KEYWORDS s.currentLexeme).getD (TokenType.Identifier s.currentLexeme)
  s.token ty

/-- Wraps a produced token as `Some(token)`, as `Scanner::scan_token` does via
`Some(token).transpose()` on the non-skip branches. -/
def tokenSome (r : Except Error (Token × Scanner)) : Except Error (Option Token × Scanner) :=
  r.map (fun p => (some p.1, p.2))

/-- From `scanner.rs`, `Scanner::scan_token`: consume one character and produce
at most one token (`none` models the `SKIP_TOKEN` branches), or fail.  The
`is_ascii_digit` guard is `Char.isDigit`; the Unicode `is_alphabetic` guard is
modelled by its ASCII restriction `Char.isAlpha`. -/
def Scanner.scanToken (s : Scanner) : Except Error (Option Token × Scanner) :=
  match s.advance with
  | (none, s1) => .ok (none, s1)
  | (some c, s1) =>
    match c with
    | '(' => tokenSome (s1.token .LeftParen)
    | ')' => tokenSome (s1.token .RightParen)
    | '{' => tokenSome (s1.token .LeftBrace)
    | '}' => tokenSome (s1.token .RightBrace)
    | ',' => tokenSome (s1.token .Comma)
    | '.' => tokenSome (s1.token .Dot)
    | '-' => tokenSome (s1.token .Minus)
    | '+' => tokenSome (s1.token .Plus)
    | ';' => tokenSome (s1.token .Semicolon)
    | '*' => tokenSome (s1.token .Star)
    | '!' =>
      match s1.matches '=' with
      | (b, s2) => tokenSome (s2.token (if b then .BangEqual else .Bang))
    | '=' =>
      match s1.matches '=' with
      | (b, s2) => tokenSome (s2.token (if b then .EqualEqual else .Equal))
    | '<' =>
      match s1.matches '=' with
      | (b, s2) => tokenSome (s2.token (if b then .LessEqual else .Less))
    | '>' =>
      match s1.matches '=' with
      | (b, s2) => tokenSome (s2.token (if b then .GreaterEqual else .Greater))
    | '/' =>
      match s1.matches '/' with
      | (true, s2) => .ok (none, commentLoop s2)
      | (false, s2) => tokenSome (s2.token .Slash)
    | ' ' => .ok (none, s1)
    | '\r' => .ok (none, s1)
    | '\t' => .ok (none, s1)
    | '\n' => .ok (none, { s1 with line := s1.line + 1 })
    | '"' => tokenSome s1.string
    | c =>
      if c.isDigit then tokenSome s1.number
      else if c.isAlpha || c = '_' then tokenSome s1.identifier
      else .error (.SyntaxError s1.line "Unexpected character.")

theorem commentLoop_inv (s : Scanner) :
    s.current ≤ (commentLoop s).current ∧ (commentLoop s).source = s.source := by
  induction s using commentLoop.induct with
  | case1 s h ih =>
    rw [commentLoop, if_pos h]
    have hadv : (s.advance).2.current = s.current + 1 ∧ (s.advance).2.source = s.source := by
      simp [Scanner.advance]
    exact ⟨le_trans (by omega) ih.1, by rw [ih.2, hadv.2]⟩
  | case2 s h =>
    rw [commentLoop, if_neg h]
    exact ⟨le_refl _, rfl⟩

theorem stringLoop_inv (s : Scanner) :
    s.current ≤ (stringLoop s).current ∧ (stringLoop s).source = s.source := by
  induction s using stringLoop.induct with
  | case1 s h ih =>
    rw [stringLoop, if_pos h]
    simp only [dite_eq_ite] at ih
    constructor
    · refine le_trans ?_ ih.1
      by_cases hn : s.peek = '\n' <;> simp [hn, Scanner.advance]
    · rw [ih.2]
      by_cases hn : s.peek = '\n' <;> simp [hn, Scanner.advance]
  | case2 s h =>
    rw [stringLoop, if_neg h]
    exact ⟨le_refl _, rfl⟩

theorem digitLoop_inv (s : Scanner) :
    s.current ≤ (digitLoop s).current ∧ (digitLoop s).source = s.source := by
  induction s using digitLoop.induct with
  | case1 s h ih =>
    rw [digitLoop, if_pos h]
    exact ⟨le_trans (by simp [Scanner.advance]) ih.1, by rw [ih.2]; simp [Scanner.advance]⟩
  | case2 s h =>
    rw [digitLoop, if_neg h]
    exact ⟨le_refl _, rfl⟩

theorem identLoop_inv (s : Scanner) :
    s.current ≤ (identLoop s).current ∧ (identLoop s).source = s.source := by
  induction s using identLoop.induct with
  | case1 s h ih =>
    rw [identLoop, if_pos h]
    exact ⟨le_trans (by simp [Scanner.advance]) ih.1, by rw [ih.2]; simp [Scanner.advance]⟩
  | case2 s h =>
    rw [identLoop, if_neg h]
    exact ⟨le_refl _, rfl⟩

theorem matches_inv (s : Scanner) (e : Char) :
    s.current ≤ (s.matches e).2.current ∧ (s.matches e).2.source = s.source := by
  rw [Scanner.matches]
  split
  · exact ⟨le_refl _, rfl⟩
  · split
    · split
      · exact ⟨by simp, rfl⟩
      · exact ⟨le_refl _, rfl⟩
    · exact ⟨le_refl _, rfl⟩

theorem string_ok_inv {s : Scanner} {t : Token} {s' : Scanner}
    (h : Scanner.string s = .ok (t, s')) :
    s.current ≤ s'.current ∧ s'.source = s.source := by
  rw [Scanner.string] at h
  split at h
  · exact absurd h (by simp)
  · rw [Scanner.token] at h
    have hl := stringLoop_inv s
    simp only [Except.ok.injEq, Prod.mk.injEq] at h
    rw [← h.2]
    simp only [Scanner.advance]
    exact ⟨by omega, hl.2⟩

theorem number_ok_inv {s : Scanner} {t : Token} {s' : Scanner}
    (h : Scanner.number s = .ok (t, s')) :
    s.current ≤ s'.current ∧ s'.source = s.source := by
  rw [Scanner.number] at h
  have h1 := digitLoop_inv s
  have hdot : s.current ≤ (if (digitLoop s).peek = '.' ∧ (digitLoop s).peekNext.isDigit
        then digitLoop ((digitLoop s).advance).2 else digitLoop s).current ∧
      (if (digitLoop s).peek = '.' ∧ (digitLoop s).peekNext.isDigit
        then digitLoop ((digitLoop s).advance).2 else digitLoop s).source = s.source := by
    split
    · have h2 := digitLoop_inv ((digitLoop s).advance).2
      refine ⟨le_trans h1.1 (le_trans ?_ h2.1), by rw [h2.2]; simp [Scanner.advance, h1.2]⟩
      simp [Scanner.advance]
    · exact h1
  split at h
  · rw [Scanner.token] at h
    simp only [Except.ok.injEq, Prod.mk.injEq] at h
    rw [← h.2]
    exact hdot
  · exact absurd h (by simp)

theorem identifier_ok_inv {s : Scanner} {t : Token} {s' : Scanner}
    (h : Scanner.identifier s = .ok (t, s')) :
    s.current ≤ s'.current ∧ s'.source = s.source := by
  rw [Scanner.identifier, Scanner.token] at h
  simp only [Except.ok.injEq, Prod.mk.injEq] at h
  rw [← h.2]
  exact identLoop_inv s

theorem token_ok_inv {s : Scanner} {ty : TokenType} {t : Token} {s' : Scanner}
    (h : Scanner.token s ty = .ok (t, s')) : s' = s := by
  rw [Scanner.token] at h
  simp only [Except.ok.injEq, Prod.mk.injEq] at h
  exact h.2.symm


theorem scanToken_inv {s : Scanner} {o : Option Token} {s' : Scanner}
    (h : Scanner.scanToken s = .ok (o, s')) :
    s.current < s'.current ∧ s'.source = s.source := by
  rw [Scanner.scanToken] at h
  simp only [Scanner.advance] at h
  split at h
  next heq =>
    simp only [Prod.mk.injEq] at heq
    simp only [Except.ok.injEq, Prod.mk.injEq] at h
    rw [← h.2, ← heq.2]
    exact ⟨by simp, rfl⟩
  next c s1 heq =>
    simp only [Prod.mk.injEq] at heq
    have hs1c : s1.current = s.current + 1 := by rw [← heq.2]
    have hs1s : s1.source = s.source := by rw [← heq.2]
    clear heq
    have tokCase : ∀ {s2 : Scanner} {ty : TokenType},
        s.current < s2.current → s2.source = s.source →
        tokenSome (Scanner.token s2 ty) = .ok (o, s') →
        s.current < s'.current ∧ s'.source = s.source := by
      intro s2 ty hlt hsrc hh
      rw [tokenSome, Scanner.token] at hh
      simp only [Except.map, Except.ok.injEq, Prod.mk.injEq] at hh
      rw [← hh.2]
      exact ⟨hlt, hsrc⟩
    split at h
    · exact tokCase (by omega) hs1s h
    · exact tokCase (by omega) hs1s h
    · exact tokCase (by omega) hs1s h
    · exact tokCase (by omega) hs1s h
    · exact tokCase (by omega) hs1s h
    · exact tokCase (by omega) hs1s h
    · exact tokCase (by omega) hs1s h
    · exact tokCase (by omega) hs1s h
    · exact tokCase (by omega) hs1s h
    · exact tokCase (by omega) hs1s h
    · have hm := matches_inv s1 '='
      exact tokCase (by omega) (by rw [hm.2, hs1s]) h
    · have hm := matches_inv s1 '='
      exact tokCase (by omega) (by rw [hm.2, hs1s]) h
    · have hm := matches_inv s1 '='
      exact tokCase (by omega) (by rw [hm.2, hs1s]) h
    · have hm := matches_inv s1 '='
      exact tokCase (by omega) (by rw [hm.2, hs1s]) h
    · -- the '/' branch: comment or slash
      split at h
      next s2 heq2 =>
        have hm := matches_inv s1 '/'
        rw [heq2] at hm
        dsimp only at hm
        have hc := commentLoop_inv s2
        simp only [Except.ok.injEq, Prod.mk.injEq] at h
        rw [← h.2]
        exact ⟨by omega, by rw [hc.2, hm.2, hs1s]⟩
      next s2 heq2 =>
        have hm := matches_inv s1 '/'
        rw [heq2] at hm
        dsimp only at hm
        exact tokCase (by omega) (by rw [hm.2, hs1s]) h
    · simp only [Except.ok.injEq, Prod.mk.injEq] at h
      rw [← h.2]; exact ⟨by omega, hs1s⟩
    · simp only [Except.ok.injEq, Prod.mk.injEq] at h
      rw [← h.2]; exact ⟨by omega, hs1s⟩
    · simp only [Except.ok.injEq, Prod.mk.injEq] at h
      rw [← h.2]; exact ⟨by omega, hs1s⟩
    · simp only [Except.ok.injEq, Prod.mk.injEq] at h
      rw [← h.2]
      exact ⟨by dsimp only; omega, by dsimp only; exact hs1s⟩
    · -- the string branch
      rw [tokenSome] at h
      rcases hst : Scanner.string s1 with e | p
      · rw [hst] at h; exact absurd h (by simp [Except.map])
      · rw [hst] at h
        simp only [Except.map, Except.ok.injEq, Prod.mk.injEq] at h
        have hi := string_ok_inv hst
        rw [← h.2]
        exact ⟨by omega, by rw [hi.2, hs1s]⟩
    · -- digit / alpha / error fallthrough
      split at h
      · rw [tokenSome] at h
        rcases hst : Scanner.number s1 with e | p
        · rw [hst] at h; exact absurd h (by simp [Except.map])
        · rw [hst] at h
          simp only [Except.map, Except.ok.injEq, Prod.mk.injEq] at h
          have hi := number_ok_inv hst
          rw [← h.2]
          exact ⟨by omega, by rw [hi.2, hs1s]⟩
      · split at h
        · rw [tokenSome] at h
          rcases hst : Scanner.identifier s1 with e | p
          · rw [hst] at h; exact absurd h (by simp [Except.map])
          · rw [hst] at h
            simp only [Except.map, Except.ok.injEq, Prod.mk.injEq] at h
            have hi := identifier_ok_inv hst
            rw [← h.2]
            exact ⟨by omega, by rw [hi.2, hs1s]⟩
        · exact absurd h (by simp)

/-- From `scanner.rs`, the loop of `Scanner::scan_tokens`: while not at the
end, snap `start` to `current`, scan one token, and append it if one was
produced; afterwards append the end-of-input token carrying the final line. -/
def scanTokensGo (s : Scanner) (tokens : List Token) : Except Error (List Token) :=
  if s.isAtEnd then .ok (tokens ++ [{ ty := .Eof, lexeme := "", line := s.line }])
  else
    match hstep : Scanner.scanToken { s with start := s.current } with
    | .error e => .error e
    | .ok (o, s') => scanTokensGo s' (tokens ++ o.toList)
termination_by s.source.length - s.current
decreasing_by
  rename_i hend
  have hp := scanToken_inv hstep
  simp only [Scanner.isAtEnd, ge_iff_le, decide_eq_true_eq, not_le] at hend
  dsimp only at hp
  rw [hp.2]
  omega

/-- From `scanner.rs`, `Scanner::new` followed by `Scanner::scan_tokens`:
scan a whole source text into its token sequence. -/
def scan (source : Str) : Except Error (List Token) :=
  scanTokensGo { source := source.toList, start := 0, current := 0, line := 1 } []

/-- From `syntax.rs`, `enum Expr`: the expression tree.  `literal` wraps the
originating token; `binary` and `unary` keep their operator tokens. -/
inductive Expr where
  | binary (left : Expr) (operator : Token) (right : Expr)
  | grouping (e : Expr)
  | literal (t : Token)
  | unary (operator : Token) (right : Expr)
deriving Repr, DecidableEq

/-- From `syntax.rs`, `Parser::peek`: `tokens.get(current)`.  The token list is
passed explicitly everywhere (the `Parser` struct's `tokens` field), and the
cursor `current` is threaded as a `Nat`. -/
def Parser.peek (toks : List Token) (c : Nat) : Option Token :=
  toks[c]?

/-- From `syntax.rs`, `Parser::previous`: `tokens.get(current - 1)`. -/
def Parser.previous (toks : List Token) (c : Nat) : Option Token :=
  toks[c - 1]?

/-- From `syntax.rs`, `Parser::is_at_end`: the current token is `Eof` (or the
cursor is past the end). -/
def Parser.isAtEnd (toks : List Token) (c : Nat) : Bool :=
  match Parser.peek toks c with
  | some t => t.ty.matches .Eof
  | none => true

/-- From `syntax.rs`, `Parser::check`: not at the end and the current token's
kind matches `ty` by discriminant. -/
def Parser.check (toks : List Token) (c : Nat) (ty : TokenType) : Bool :=
  if Parser.isAtEnd toks c then false
  else
    match Parser.peek toks c with
    | some t => t.ty.matches ty
    | none => false

/-- Cursor movement of `Parser::advance`: `current` is incremented unless the
parser is at the end. -/
def Parser.advancePos (toks : List Token) (c : Nat) : Nat :=
  if Parser.isAtEnd toks c then c else c + 1

theorem check_lt {toks : List Token} {c : Nat} {ty : TokenType}
    (h : Parser.check toks c ty = true) : c < toks.length := by
  rw [Parser.check] at h
  split at h
  · exact absurd h (by simp)
  · rcases hp : Parser.peek toks c with _ | t
    · rw [hp] at h; exact absurd h (by simp)
    · rw [Parser.peek] at hp
      exact (List.getElem?_eq_some.mp hp).1

theorem check_advancePos {toks : List Token} {c : Nat} {ty : TokenType}
    (h : Parser.check toks c ty = true) : Parser.advancePos toks c = c + 1 := by
  rw [Parser.check] at h
  rw [Parser.advancePos]
  split at h
  · exact absurd h (by simp)
  · next hend => rw [if_neg (by simp [hend])]

/-- From `syntax.rs`, `Parser::matches`: when the current token's kind matches
one of `types`, advance past it; returns the new cursor (with the facts needed
for termination) or `none` when nothing matched. -/
def Parser.matchesAdv (toks : List Token) (c : Nat) (types : List TokenType) :
    Option {c' : Nat // c < c' ∧ c' ≤ toks.length} :=
  if h : types.any (fun ty => Parser.check toks c ty) then
    some ⟨Parser.advancePos toks c, by
      simp only [List.any_eq_true] at h
      obtain ⟨ty, _, hty⟩ := h
      rw [check_advancePos hty]
      exact ⟨Nat.lt_succ_self c, check_lt hty⟩⟩
  else none

/-- Models the `previous().cloned().expect(..)` calls after a successful
`matches`: at every such call site the previous token provably exists, so the
source's panic path is unreachable; the default is arbitrary. -/
def expectTok (o : Option Token) : Token :=
  o.getD { ty := .Eof, lexeme := "", line := 0 }

/-- Line reported by parse errors: `self.peek().map(|t| t.line).unwrap_or_default()`. -/
def Parser.peekLine (toks : List Token) (c : Nat) : Nat :=
  ((Parser.peek toks c).map Token.line).getD 0

/-- From `syntax.rs`, `Parser::consume`: advance past a token of kind `ty`, or
fail with the given message at the current token's line. -/
def Parser.consume (toks : List Token) (c : Nat) (ty : TokenType) (message : Str) :
    Except Error {c' : Nat // c ≤ c'} :=
  if Parser.check toks c ty then .ok ⟨Parser.advancePos toks c, by rw [Parser.advancePos]; split <;> omega⟩
  else .error (.SyntaxError (Parser.peekLine toks c) message)

/-- Result of one parsing rule: an expression plus the advanced cursor (the
cursor bound is carried for the termination argument). -/
abbrev PRes (c : Nat) :=
  Except Error (Expr × {c' : Nat // c ≤ c'})

mutual

/-- From `syntax.rs`, `Parser::expression`: `expression → equality`. -/
def Parser.expression (toks : List Token) (c : Nat) : PRes c :=
  Parser.equality toks c
termination_by (toks.length - c) * 16 + 11

/-- From `syntax.rs`, `Parser::equality`: one `comparison`, then the
left-associative `( ( "!=" | "==" ) comparison )*` loop. -/
def Parser.equality (toks : List Token) (c : Nat) : PRes c :=
  match Parser.comparison toks c with
  | .error e => .error e
  | .ok (e, ⟨c1, h1⟩) =>
    match Parser.equalityLoop toks e c1 with
    | .error err => .error err
    | .ok (e2, ⟨c2, h2⟩) => .ok (e2, ⟨c2, le_trans h1 h2⟩)
termination_by (toks.length - c) * 16 + 10

/-- The `while self.matches(..)` loop of `Parser::equality`, folding
`Expr::Binary` nodes left-associatively; the matched operator token is
recovered via `previous()`. -/
def Parser.equalityLoop (toks : List Token) (expr : Expr) (c : Nat) : PRes c :=
  match Parser.matchesAdv toks c [.BangEqual, .EqualEqual] with
  | some ⟨c1, h1⟩ =>
    let operator := expectTok (Parser.previous toks c1)
    match Parser.comparison toks c1 with
    | .error e => .error e
    | .ok (right, ⟨c2, h2⟩) =>
      match Parser.equalityLoop toks (.binary expr operator right) c2 with
      | .error e => .error e
      | .ok (e2, ⟨c3, h3⟩) => .ok (e2, ⟨c3, by omega⟩)
  | none => .ok (expr, ⟨c, le_refl c⟩)
termination_by (toks.length - c) * 16 + 9

/-- From `syntax.rs`, `Parser::comparison`: one `term`, then the
left-associative `( ( ">" | ">=" | "<" | "<=" ) term )*` loop. -/
def Parser.comparison (toks : List Token) (c : Nat) : PRes c :=
  match Parser.term toks c with
  | .error e => .error e
  | .ok (e, ⟨c1, h1⟩) =>
    match Parser.comparisonLoop toks e c1 with
    | .error err => .error err
    | .ok (e2, ⟨c2, h2⟩) => .ok (e2, ⟨c2, le_trans h1 h2⟩)
termination_by (toks.length - c) * 16 + 8

/-- The `while self.matches(..)` loop of `Parser::comparison`. -/
def Parser.comparisonLoop (toks : List Token) (expr : Expr) (c : Nat) : PRes c :=
  match Parser.matchesAdv toks c [.Greater, .GreaterEqual, .Less, .LessEqual] with
  | some ⟨c1, h1⟩ =>
    let operator := expectTok (Parser.previous toks c1)
    match Parser.term toks c1 with
    | .error e => .error e
    | .ok (right, ⟨c2, h2⟩) =>
      match Parser.comparisonLoop toks (.binary expr operator right) c2 with
      | .error e => .error e
      | .ok (e2, ⟨c3, h3⟩) => .ok (e2, ⟨c3, by omega⟩)
  | none => .ok (expr, ⟨c, le_refl c⟩)
termination_by (toks.length - c) * 16 + 7

/-- From `syntax.rs`, `Parser::term`: one `factor`, then the left-associative
`( ( "-" | "+" ) factor )*` loop. -/
def Parser.term (toks : List Token) (c : Nat) : PRes c :=
  match Parser.factor toks c with
  | .error e => .error e
  | .ok (e, ⟨c1, h1⟩) =>
    match Parser.termLoop toks e c1 with
    | .error err => .error err
    | .ok (e2, ⟨c2, h2⟩) => .ok (e2, ⟨c2, le_trans h1 h2⟩)
termination_by (toks.length - c) * 16 + 6

/-- The `while self.matches(..)` loop of `Parser::term`. -/
def Parser.termLoop (toks : List Token) (expr : Expr) (c : Nat) : PRes c :=
  match Parser.matchesAdv toks c [.Minus, .Plus] with
  | some ⟨c1, h1⟩ =>
    let operator := expectTok (Parser.previous toks c1)
    match Parser.factor toks c1 with
    | .error e => .error e
    | .ok (right, ⟨c2, h2⟩) =>
      match Parser.termLoop toks (.binary expr operator right) c2 with
      | .error e => .error e
      | .ok (e2, ⟨c3, h3⟩) => .ok (e2, ⟨c3, by omega⟩)
  | none => .ok (expr, ⟨c, le_refl c⟩)
termination_by (toks.length - c) * 16 + 5

/-- From `syntax.rs`, `Parser::factor`: one `unary`, then the left-associative
`( ( "/" | "*" ) unary )*` loop. -/
def Parser.factor (toks : List Token) (c : Nat) : PRes c :=
  match Parser.unary toks c with
  | .error e => .error e
  | .ok (e, ⟨c1, h1⟩) =>
    match Parser.factorLoop toks e c1 with
    | .error err => .error err
    | .ok (e2, ⟨c2, h2⟩) => .ok (e2, ⟨c2, le_trans h1 h2⟩)
termination_by (toks.length - c) * 16 + 4

/-- The `while self.matches(..)` loop of `Parser::factor`. -/
def Parser.factorLoop (toks : List Token) (expr : Expr) (c : Nat) : PRes c :=
  match Parser.matchesAdv toks c [.Slash, .Star] with
  | some ⟨c1, h1⟩ =>
    let operator := expectTok (Parser.previous toks c1)
    match Parser.unary toks c1 with
    | .error e => .error e
    | .ok (right, ⟨c2, h2⟩) =>
      match Parser.factorLoop toks (.binary expr operator right) c2 with
      | .error e => .error e
      | .ok (e2, ⟨c3, h3⟩) => .ok (e2, ⟨c3, by omega⟩)
  | none => .ok (expr, ⟨c, le_refl c⟩)
termination_by (toks.length - c) * 16 + 3

/-- From `syntax.rs`, `Parser::unary`: a `( "!" | "-" ) unary` prefix chain
(right-recursive), or a `primary`. -/
def Parser.unary (toks : List Token) (c : Nat) : PRes c :=
  match Parser.matchesAdv toks c [.Bang, .Minus] with
  | some ⟨c1, h1⟩ =>
    let operator := expectTok (Parser.previous toks c1)
    match Parser.unary toks c1 with
    | .error e => .error e
    | .ok (right, ⟨c2, h2⟩) => .ok (.unary operator right, ⟨c2, by omega⟩)
  | none => Parser.primary toks c
termination_by (toks.length - c) * 16 + 2

/-- From `syntax.rs`, `Parser::primary`: a literal (`false`, `true`, `nil`,
any number, any string — matching is by discriminant, so payloads are
irrelevant), or a parenthesized `expression` requiring `)` via `consume`, or
the "Expected expression." error at the current token's line. -/
def Parser.primary (toks : List Token) (c : Nat) : PRes c :=
  match Parser.matchesAdv toks c [.False, .True, .Nil, .Number 0, .String ""] with
  | some ⟨c1, h1⟩ => .ok (.literal (expectTok (Parser.previous toks c1)), ⟨c1, by omega⟩)
  | none =>
    match Parser.matchesAdv toks c [.LeftParen] with
    | some ⟨c1, h1⟩ =>
      match Parser.expression toks c1 with
      | .error e => .error e
      | .ok (e, ⟨c2, h2⟩) =>
        match Parser.consume toks c2 .RightParen "Expected ')' after expression." with
        | .error err => .error err
        | .ok ⟨c3, h3⟩ => .ok (.grouping e, ⟨c3, by omega⟩)
    | none => .error (.SyntaxError (Parser.peekLine toks c) "Expected expression.")
termination_by (toks.length - c) * 16 + 1

end

/-- From `syntax.rs`, `Parser::parse`: parse one `expression` from cursor 0.
The final cursor is dropped, so remaining tokens before `Eof` are ignored. -/
def Parser.parse (toks : List Token) : Except Error Expr :=
  (Parser.expression toks 0).map (fun p => p.1)

/-- From `interpret.rs`, `enum Value`: the runtime values, with `f64` as
`Rat`. -/
inductive Value where
  | String (s : Str)
  | Number (n : Rat)
  | Boolean (b : Bool)
  | Nil
deriving Repr, DecidableEq

/-- From `interpret.rs`, `Value::into_double`: a `Number` yields its payload,
anything else is the "Expected number" type error at the given line. -/
def Value.into_double (v : Value) (line : Nat) : Except Error Rat :=
  match v with
  | .Number num => .ok num
  | _ => .error (.TypeError line "Expected number")

/-- From `interpret.rs`, `Value::is_truthy`: strings and numbers are truthy,
booleans are themselves, nil is falsy. -/
def Value.is_truthy (v : Value) : Bool :=
  match v with
  | .String _ | .Number _ => true
  | .Boolean b => b
  | .Nil => false

/-- From `interpret.rs`, the `std::ops::Not` impl for `Value`:
`self.is_truthy().not().into()`. -/
def Value.notOp (v : Value) : Value :=
  .Boolean (!v.is_truthy)

/-- From `interpret.rs`, the derived `PartialEq` for `Value` used by `!=` and
`==`: same constructor with equal payloads (with `f64` equality modelled as
`Rat` equality). -/
def Value.beq (a b : Value) : Bool :=
  match a, b with
  | .String x, .String y => x == y
  | .Number x, .Number y => x == y
  | .Boolean x, .Boolean y => x == y
  | .Nil, .Nil => true
  | _, _ => false

/-- From `interpret.rs`, `Value::kind`: the name of a value's kind. -/
def Value.kind (v : Value) : Str :=
  match v with
  | .String _ => "string"
  | .Number _ => "number"
  | .Boolean _ => "boolean"
  | .Nil => "nil"

/-- Outcome of `evaluate`: `ok`/`err` model `Result<Value, Error>`, and
`invalid` models the `panic!` branches (a process fault distinct from a
returned error). -/
inductive EvalResult where
  | ok (v : Value)
  | err (e : Error)
  | invalid (msg : Str)
deriving Repr, DecidableEq

/-- Sequencing of a subexpression's outcome, modelling `evaluate(*e)?` (errors
propagate; a fault in a subevaluation aborts the whole evaluation). -/
def EvalResult.andThen (r : EvalResult) (k : Value → EvalResult) : EvalResult :=
  match r with
  | .ok v => k v
  | .err e => .err e
  | .invalid m => .invalid m

/-- Sequencing of an `Except` step inside `evaluate`, modelling the `?`
operator on `Value::into_double`. -/
def liftE (r : Except Error Rat) (k : Rat → EvalResult) : EvalResult :=
  match r with
  | .ok a => k a
  | .error e => .err e

/-- From `interpret.rs`, `evaluate`: the recursive tree walk.  Each arm mirrors
the corresponding `match` arm of the source; the three `panic!` fallthroughs
become `invalid` with the source's panic message. -/
def evaluate : Expr → EvalResult
  | .binary left operator right =>
    (evaluate left).andThen fun l =>
    (evaluate right).andThen fun r =>
      match operator.ty with
      | .Minus =>
        liftE (l.into_double operator.line) fun a =>
        liftE (r.into_double operator.line) fun b => .ok (.Number (a - b))
      | .Slash =>
        liftE (l.into_double operator.line) fun a =>
        liftE (r.into_double operator.line) fun b => .ok (.Number (a / b))
      | .Star =>
        liftE (l.into_double operator.line) fun a =>
        liftE (r.into_double operator.line) fun b => .ok (.Number (a * b))
      | .Plus =>
        match l, r with
        | .Number a, .Number b => .ok (.Number (a + b))
        | .String a, .String b => .ok (.String (a ++ b))
        | _, _ => .err (.TypeError operator.line "Invalid operand types for '+'")
      | .Greater =>
        liftE (l.into_double operator.line) fun a =>
        liftE (r.into_double operator.line) fun b => .ok (.Boolean (a > b))
      | .GreaterEqual =>
        liftE (l.into_double operator.line) fun a =>
        liftE (r.into_double operator.line) fun b => .ok (.Boolean (a ≥ b))
      | .Less =>
        liftE (l.into_double operator.line) fun a =>
        liftE (r.into_double operator.line) fun b => .ok (.Boolean (a < b))
      | .LessEqual =>
        liftE (l.into_double operator.line) fun a =>
        liftE (r.into_double operator.line) fun b => .ok (.Boolean (a ≤ b))
      | .BangEqual => .ok (.Boolean (!(Value.beq l r)))
      | .EqualEqual => .ok (.Boolean (Value.beq l r))
      | _ => .invalid "Invalid binary operator"
  | .grouping e => evaluate e
  | .literal token =>
    match token.ty with
    | .Number num => .ok (.Number num)
    | .String s => .ok (.String s)
    | .False => .ok (.Boolean false)
    | .True => .ok (.Boolean true)
    | .Nil => .ok .Nil
    | _ => .invalid "Invalid literal value"
  | .unary operator right =>
    (evaluate right).andThen fun r =>
      match operator.ty with
      | .Minus =>
        liftE (r.into_double operator.line) fun b => .ok (.Number (-b))
      | .Bang => .ok r.notOp
      | _ => .invalid "Invalid unary operator"

/-- The pipeline of `lib.rs`'s `run`: scan, parse, evaluate (with the final
printing dropped; scanning or parsing failures surface as `err`). -/
def runSource (source : Str) : EvalResult :=
  match scan source with
  | .error e => .err e
  | .ok toks =>
    match Parser.parse toks with
    | .error e => .err e
    | .ok expr => evaluate expr


/-- Binary operator kinds actually handled by `evaluate`'s `Expr::Binary` arm
(the closed set before its `panic!` fallthrough). -/
def binOpOK (ty : TokenType) : Bool :=
  match ty with
  | .Minus | .Slash | .Star | .Plus | .Greater | .GreaterEqual
  | .Less | .LessEqual | .BangEqual | .EqualEqual => true
  | _ => false

/-- Unary operator kinds handled by `evaluate`'s `Expr::Unary` arm. -/
def unOpOK (ty : TokenType) : Bool :=
  match ty with
  | .Bang | .Minus => true
  | _ => false

/-- Literal token kinds handled by `evaluate`'s `Expr::Literal` arm. -/
def litOK (ty : TokenType) : Bool :=
  match ty with
  | .Number _ | .String _ | .False | .True | .Nil => true
  | _ => false

/-- An expression tree all of whose operator and literal tokens lie in the
closed sets `evaluate` handles, i.e. on which `evaluate` can never reach a
`panic!` branch. -/
def exprOK : Expr → Bool
  | .binary l op r => binOpOK op.ty && exprOK l && exprOK r
  | .grouping e => exprOK e
  | .literal t => litOK t.ty
  | .unary op r => unOpOK op.ty && exprOK r

unseal commentLoop stringLoop digitLoop identLoop scanTokensGo in
theorem scan_sub_chain : scan "1 - 2 - 3" = .ok [⟨.Number 1, "1", 1⟩, ⟨.Minus, "-", 1⟩,
    ⟨.Number 2, "2", 1⟩, ⟨.Minus, "-", 1⟩, ⟨.Number 3, "3", 1⟩, ⟨.Eof, "", 1⟩] := by rfl

unseal Parser.expression Parser.equality Parser.equalityLoop Parser.comparison
  Parser.comparisonLoop Parser.term Parser.termLoop Parser.factor Parser.factorLoop
  Parser.unary Parser.primary in
theorem parse_sub_chain : Parser.parse [⟨.Number 1, "1", 1⟩, ⟨.Minus, "-", 1⟩,
    ⟨.Number 2, "2", 1⟩, ⟨.Minus, "-", 1⟩, ⟨.Number 3, "3", 1⟩, ⟨.Eof, "", 1⟩]
    = .ok (.binary (.binary (.literal ⟨.Number 1, "1", 1⟩) ⟨.Minus, "-", 1⟩
        (.literal ⟨.Number 2, "2", 1⟩)) ⟨.Minus, "-", 1⟩ (.literal ⟨.Number 3, "3", 1⟩)) := by rfl

/-- Claim C3: every binary precedence level parses left-associatively: for the
source "1 - 2 - 3", scanning then parsing yields the left-nested tree
`Binary(Binary(1,-,2),-,3)` (not `Binary(1,-,Binary(2,-,3))`), and evaluating
it yields the number value -4. -/
theorem c3_left_assoc :
    scan "1 - 2 - 3" = .ok [⟨.Number 1, "1", 1⟩, ⟨.Minus, "-", 1⟩,
      ⟨.Number 2, "2", 1⟩, ⟨.Minus, "-", 1⟩, ⟨.Number 3, "3", 1⟩, ⟨.Eof, "", 1⟩] ∧
    Parser.parse [⟨.Number 1, "1", 1⟩, ⟨.Minus, "-", 1⟩,
      ⟨.Number 2, "2", 1⟩, ⟨.Minus, "-", 1⟩, ⟨.Number 3, "3", 1⟩, ⟨.Eof, "", 1⟩]
      = .ok (.binary (.binary (.literal ⟨.Number 1, "1", 1⟩) ⟨.Minus, "-", 1⟩
          (.literal ⟨.Number 2, "2", 1⟩)) ⟨.Minus, "-", 1⟩ (.literal ⟨.Number 3, "3", 1⟩)) ∧
    evaluate (.binary (.binary (.literal ⟨.Number 1, "1", 1⟩) ⟨.Minus, "-", 1⟩
      (.literal ⟨.Number 2, "2", 1⟩)) ⟨.Minus, "-", 1⟩ (.literal ⟨.Number 3, "3", 1⟩))
      = .ok (.Number (-4)) := by
  refine ⟨scan_sub_chain, parse_sub_chain, ?_⟩
  norm_num [evaluate, EvalResult.andThen, liftE, Value.into_double]

unseal commentLoop stringLoop digitLoop identLoop scanTokensGo in
theorem scan_add_mul : scan "1 + 2 * 3" = .ok [⟨.Number 1, "1", 1⟩, ⟨.Plus, "+", 1⟩,
    ⟨.Number 2, "2", 1⟩, ⟨.Star, "*", 1⟩, ⟨.Number 3, "3", 1⟩, ⟨.Eof, "", 1⟩] := by rfl

unseal Parser.expression Parser.equality Parser.equalityLoop Parser.comparison
  Parser.comparisonLoop Parser.term Parser.termLoop Parser.factor Parser.factorLoop
  Parser.unary Parser.primary in
theorem parse_add_mul : Parser.parse [⟨.Number 1, "1", 1⟩, ⟨.Plus, "+", 1⟩,
    ⟨.Number 2, "2", 1⟩, ⟨.Star, "*", 1⟩, ⟨.Number 3, "3", 1⟩, ⟨.Eof, "", 1⟩]
    = .ok (.binary (.literal ⟨.Number 1, "1", 1⟩) ⟨.Plus, "+", 1⟩
        (.binary (.literal ⟨.Number 2, "2", 1⟩) ⟨.Star, "*", 1⟩
          (.literal ⟨.Number 3, "3", 1⟩))) := by rfl

unseal commentLoop stringLoop digitLoop identLoop scanTokensGo in
theorem scan_paren_mul : scan "(1 + 2) * 3" = .ok [⟨.LeftParen, "(", 1⟩, ⟨.Number 1, "1", 1⟩,
    ⟨.Plus, "+", 1⟩, ⟨.Number 2, "2", 1⟩, ⟨.RightParen, ")", 1⟩, ⟨.Star, "*", 1⟩,
    ⟨.Number 3, "3", 1⟩, ⟨.Eof, "", 1⟩] := by rfl

unseal Parser.expression Parser.equality Parser.equalityLoop Parser.comparison
  Parser.comparisonLoop Parser.term Parser.termLoop Parser.factor Parser.factorLoop
  Parser.unary Parser.primary in
theorem parse_paren_mul : Parser.parse [⟨.LeftParen, "(", 1⟩, ⟨.Number 1, "1", 1⟩,
    ⟨.Plus, "+", 1⟩, ⟨.Number 2, "2", 1⟩, ⟨.RightParen, ")", 1⟩, ⟨.Star, "*", 1⟩,
    ⟨.Number 3, "3", 1⟩, ⟨.Eof, "", 1⟩]
    = .ok (.binary (.grouping (.binary (.literal ⟨.Number 1, "1", 1⟩) ⟨.Plus, "+", 1⟩
        (.literal ⟨.Number 2, "2", 1⟩))) ⟨.Star, "*", 1⟩
          (.literal ⟨.Number 3, "3", 1⟩)) := by rfl

/-- Claim C4: multiplicative operators bind tighter than additive ones and
parentheses override precedence: the full pipeline takes "1 + 2 * 3" to the
number 7 and "(1 + 2) * 3" to the number 9. -/
theorem c4_precedence :
    runSource "1 + 2 * 3" = .ok (.Number 7) ∧
    runSource "(1 + 2) * 3" = .ok (.Number 9) := by
  constructor
  · simp only [runSource, scan_add_mul, parse_add_mul]
    norm_num [evaluate, EvalResult.andThen, liftE, Value.into_double]
  · simp only [runSource, scan_paren_mul, parse_paren_mul]
    norm_num [evaluate, EvalResult.andThen, liftE, Value.into_double]

unseal commentLoop stringLoop digitLoop identLoop scanTokensGo in
theorem scan_eq_cross : scan "1 == \"1\"" = .ok [⟨.Number 1, "1", 1⟩, ⟨.EqualEqual, "==", 1⟩,
    ⟨.String "1", "\"1\"", 1⟩, ⟨.Eof, "", 1⟩] := by rfl

unseal Parser.expression Parser.equality Parser.equalityLoop Parser.comparison
  Parser.comparisonLoop Parser.term Parser.termLoop Parser.factor Parser.factorLoop
  Parser.unary Parser.primary in
theorem parse_eq_cross : Parser.parse [⟨.Number 1, "1", 1⟩, ⟨.EqualEqual, "==", 1⟩,
    ⟨.String "1", "\"1\"", 1⟩, ⟨.Eof, "", 1⟩]
    = .ok (.binary (.literal ⟨.Number 1, "1", 1⟩) ⟨.EqualEqual, "==", 1⟩
        (.literal ⟨.String "1", "\"1\"", 1⟩)) := by rfl

unseal commentLoop stringLoop digitLoop identLoop scanTokensGo in
theorem scan_neg_str : scan "-\"a\"" = .ok [⟨.Minus, "-", 1⟩,
    ⟨.String "a", "\"a\"", 1⟩, ⟨.Eof, "", 1⟩] := by rfl

unseal Parser.expression Parser.equality Parser.equalityLoop Parser.comparison
  Parser.comparisonLoop Parser.term Parser.termLoop Parser.factor Parser.factorLoop
  Parser.unary Parser.primary in
theorem parse_neg_str : Parser.parse [⟨.Minus, "-", 1⟩, ⟨.String "a", "\"a\"", 1⟩, ⟨.Eof, "", 1⟩]
    = .ok (.unary ⟨.Minus, "-", 1⟩ (.literal ⟨.String "a", "\"a\"", 1⟩)) := by rfl

unseal commentLoop stringLoop digitLoop identLoop scanTokensGo in
theorem scan_plus_str : scan "1 + \"a\"" = .ok [⟨.Number 1, "1", 1⟩, ⟨.Plus, "+", 1⟩,
    ⟨.String "a", "\"a\"", 1⟩, ⟨.Eof, "", 1⟩] := by rfl

unseal Parser.expression Parser.equality Parser.equalityLoop Parser.comparison
  Parser.comparisonLoop Parser.term Parser.termLoop Parser.factor Parser.factorLoop
  Parser.unary Parser.primary in
theorem parse_plus_str : Parser.parse [⟨.Number 1, "1", 1⟩, ⟨.Plus, "+", 1⟩,
    ⟨.String "a", "\"a\"", 1⟩, ⟨.Eof, "", 1⟩]
    = .ok (.binary (.literal ⟨.Number 1, "1", 1⟩) ⟨.Plus, "+", 1⟩
        (.literal ⟨.String "a", "\"a\"", 1⟩)) := by rfl

unseal commentLoop stringLoop digitLoop identLoop scanTokensGo in
theorem scan_unterm : scan "\"abc" = .error (.SyntaxError 1 "Unterminated string.") := by rfl

unseal commentLoop stringLoop digitLoop identLoop scanTokensGo in
theorem scan_unterm_nl : scan "\"ab\ncd" = .error (.SyntaxError 2 "Unterminated string.") := by rfl

unseal commentLoop stringLoop digitLoop identLoop scanTokensGo in
theorem scan_open_paren : scan "(1 + 2" = .ok [⟨.LeftParen, "(", 1⟩, ⟨.Number 1, "1", 1⟩,
    ⟨.Plus, "+", 1⟩, ⟨.Number 2, "2", 1⟩, ⟨.Eof, "", 1⟩] := by rfl

unseal Parser.expression Parser.equality Parser.equalityLoop Parser.comparison
  Parser.comparisonLoop Parser.term Parser.termLoop Parser.factor Parser.factorLoop
  Parser.unary Parser.primary in
theorem parse_open_paren : Parser.parse [⟨.LeftParen, "(", 1⟩, ⟨.Number 1, "1", 1⟩,
    ⟨.Plus, "+", 1⟩, ⟨.Number 2, "2", 1⟩, ⟨.Eof, "", 1⟩]
    = .error (.SyntaxError 1 "Expected ')' after expression.") := by rfl

unseal commentLoop stringLoop digitLoop identLoop scanTokensGo in
theorem scan_one_two : scan "1 2" = .ok [⟨.Number 1, "1", 1⟩, ⟨.Number 2, "2", 1⟩,
    ⟨.Eof, "", 1⟩] := by rfl

unseal Parser.expression Parser.equality Parser.equalityLoop Parser.comparison
  Parser.comparisonLoop Parser.term Parser.termLoop Parser.factor Parser.factorLoop
  Parser.unary Parser.primary in
theorem expression_one_two :
    Parser.expression [⟨.Number 1, "1", 1⟩, ⟨.Number 2, "2", 1⟩, ⟨.Eof, "", 1⟩] 0
    = .ok (.literal ⟨.Number 1, "1", 1⟩, ⟨1, Nat.zero_le 1⟩) := by rfl

unseal commentLoop stringLoop digitLoop identLoop scanTokensGo in
theorem scan_num_dot : scan "123." = .ok [⟨.Number 123, "123", 1⟩, ⟨.Dot, ".", 1⟩,
    ⟨.Eof, "", 1⟩] := by rfl

/-- Claim C1 (against the modelled intent of `interpret.rs`): evaluation
failures are `TypeError`s with the offending operator's line and a static
message, while scanning and parsing failures are `SyntaxError`s — exhibited on
concrete runs of each failure site.  Note that `error.rs` as given declares no
`TypeError` variant even though `interpret.rs` constructs one, so the crate
itself does not compile; the modelled `Error.TypeError` follows the
construction sites in `interpret.rs`. -/
theorem c1_error_kinds :
    runSource "-\"a\"" = .err (.TypeError 1 "Expected number") ∧
    runSource "1 + \"a\"" = .err (.TypeError 1 "Invalid operand types for '+'") ∧
    runSource "\"abc" = .err (.SyntaxError 1 "Unterminated string.") ∧
    runSource "(1 + 2" = .err (.SyntaxError 1 "Expected ')' after expression.") := by
  refine ⟨?_, ?_, ?_, ?_⟩
  · simp only [runSource, scan_neg_str, parse_neg_str]
    rfl
  · simp only [runSource, scan_plus_str, parse_plus_str]
    rfl
  · simp only [runSource, scan_unterm]
  · simp only [runSource, scan_open_paren, parse_open_paren]

/-- Claim C5: for evaluated operands of a Binary `+` node, two Numbers add,
two Strings concatenate, and every other combination fails with the
"Invalid operand types for '+'" TypeError at the operator's line — no
implicit coercion between Number and String. -/
theorem c5_plus_semantics (el er : Expr) (lx : Str) (line : Nat) (l r : Value)
    (hl : evaluate el = .ok l) (hr : evaluate er = .ok r) :
    evaluate (.binary el ⟨.Plus, lx, line⟩ er) =
      match l, r with
      | .Number a, .Number b => .ok (.Number (a + b))
      | .String a, .String b => .ok (.String (a ++ b))
      | _, _ => .err (.TypeError line "Invalid operand types for '+'") := by
  simp only [evaluate, hl, hr, EvalResult.andThen]
  cases l <;> cases r <;> rfl

theorem c5_plus_semantics_witness :
    evaluate (.binary (.literal ⟨.Number 1, "1", 1⟩) ⟨.Plus, "+", 1⟩
        (.literal ⟨.String "a", "\"a\"", 1⟩))
      = .err (.TypeError 1 "Invalid operand types for '+'") := by
  have h := c5_plus_semantics (.literal ⟨.Number 1, "1", 1⟩)
    (.literal ⟨.String "a", "\"a\"", 1⟩) "+" 1 (.Number 1) (.String "a") rfl rfl
  simpa using h

/-- Claim C6: `==` and `!=` never fail: on any evaluated operands they return
the Boolean (dis)equality of the two values, where value equality is
kind-and-content equality (so cross-kind comparisons are false, never an
error); in particular the pipeline takes "1 == \"1\"" to Boolean false. -/
theorem c6_equality_total (el er : Expr) (lx : Str) (line : Nat) (l r : Value)
    (hl : evaluate el = .ok l) (hr : evaluate er = .ok r) :
    evaluate (.binary el ⟨.EqualEqual, lx, line⟩ er) = .ok (.Boolean (Value.beq l r)) ∧
    evaluate (.binary el ⟨.BangEqual, lx, line⟩ er) = .ok (.Boolean (!Value.beq l r)) ∧
    (Value.beq l r = true ↔ l = r) ∧
    (l.kind ≠ r.kind → Value.beq l r = false) ∧
    runSource "1 == \"1\"" = .ok (.Boolean false) := by
  refine ⟨?_, ?_, ?_, ?_, ?_⟩
  · simp only [evaluate, hl, hr, EvalResult.andThen]
  · simp only [evaluate, hl, hr, EvalResult.andThen]
  · cases l <;> cases r <;> simp [Value.beq]
  · intro hk
    cases l <;> cases r <;> first
      | rfl
      | exact absurd rfl hk
  · simp only [runSource, scan_eq_cross, parse_eq_cross]
    rfl

theorem c6_equality_total_witness :
    evaluate (.binary (.literal ⟨.Number 1, "1", 1⟩) ⟨.EqualEqual, "==", 1⟩
        (.literal ⟨.String "1", "\"1\"", 1⟩)) = .ok (.Boolean false) := by
  have h := c6_equality_total (.literal ⟨.Number 1, "1", 1⟩)
    (.literal ⟨.String "1", "\"1\"", 1⟩) "==" 1 (.Number 1) (.String "1") rfl rfl
  simpa using h.1

/-- Claim C7: unary `!` never fails: on any evaluated operand it returns the
Boolean negation of the operand's truthiness, and exactly `Nil` and
`Boolean false` are falsy (`Number 0` and the empty string are truthy). -/
theorem c7_bang_truthiness (e : Expr) (lx : Str) (line : Nat) (v : Value)
    (h : evaluate e = .ok v) :
    evaluate (.unary ⟨.Bang, lx, line⟩ e) = .ok (.Boolean (!v.is_truthy)) ∧
    (v.is_truthy = false ↔ (v = .Nil ∨ v = .Boolean false)) ∧
    (Value.Number 0).is_truthy = true ∧ (Value.String "").is_truthy = true := by
  refine ⟨?_, ?_, rfl, rfl⟩
  · simp only [evaluate, h, EvalResult.andThen]
    rfl
  · cases v <;> simp [Value.is_truthy]

theorem c7_bang_truthiness_witness :
    evaluate (.unary ⟨.Bang, "!", 1⟩ (.literal ⟨.Number 0, "0", 1⟩)) = .ok (.Boolean false) := by
  have h := c7_bang_truthiness (.literal ⟨.Number 0, "0", 1⟩) "!" 1 (.Number 0) rfl
  simpa using h.1

/-- Claim C10: `Parser::parse` does not require the token sequence to be
exhausted: whenever `expression` succeeds from cursor 0, `parse` returns its
expression no matter where the final cursor stopped; for the tokens of "1 2"
it returns the literal 1 with final cursor 1, silently ignoring the second
number token before the end-of-input token. -/
theorem c10_parse_ignores_rest :
    (∀ (toks : List Token) (e : Expr) (p : {c' : Nat // 0 ≤ c'}),
      Parser.expression toks 0 = .ok (e, p) → Parser.parse toks = .ok e) ∧
    scan "1 2" = .ok [⟨.Number 1, "1", 1⟩, ⟨.Number 2, "2", 1⟩, ⟨.Eof, "", 1⟩] ∧
    Parser.expression [⟨.Number 1, "1", 1⟩, ⟨.Number 2, "2", 1⟩, ⟨.Eof, "", 1⟩] 0
      = .ok (.literal ⟨.Number 1, "1", 1⟩, ⟨1, Nat.zero_le 1⟩) ∧
    Parser.parse [⟨.Number 1, "1", 1⟩, ⟨.Number 2, "2", 1⟩, ⟨.Eof, "", 1⟩]
      = .ok (.literal ⟨.Number 1, "1", 1⟩) := by
  refine ⟨?_, scan_one_two, expression_one_two, ?_⟩
  · intro toks e p h
    rw [Parser.parse, h]
    rfl
  · rw [Parser.parse, expression_one_two]
    rfl

theorem c10_parse_ignores_rest_witness :
    Parser.parse [⟨.Number 1, "1", 1⟩, ⟨.Number 2, "2", 1⟩, ⟨.Eof, "", 1⟩]
      = .ok (.literal ⟨.Number 1, "1", 1⟩) :=
  c10_parse_ignores_rest.1 [⟨.Number 1, "1", 1⟩, ⟨.Number 2, "2", 1⟩, ⟨.Eof, "", 1⟩]
    (.literal ⟨.Number 1, "1", 1⟩) ⟨1, Nat.zero_le 1⟩ expression_one_two

theorem stringLoop_noquote (s : Scanner) :
    s.current ≤ s.source.length →
    (∀ ch ∈ s.source.drop s.current, ch ≠ '"') →
    stringLoop s = { s with current := s.source.length,
                            line := s.line + ((s.source.drop s.current).count '\n') } := by
  induction s using stringLoop.induct with
  | case1 s h ih =>
    intro hle hq
    simp only [dite_eq_ite] at ih
    have hcond := h
    simp only [Scanner.isAtEnd, Bool.and_eq_true, Bool.not_eq_true',
      decide_eq_false_iff_not, ge_iff_le, not_le, bne_iff_ne] at hcond
    have hc : s.current < s.source.length := hcond.2
    have hdrop : s.source.drop s.current =
        s.source[s.current] :: s.source.drop (s.current + 1) :=
      List.drop_eq_getElem_cons hc
    have hpeek : s.peek = s.source[s.current] := by
      rw [Scanner.peek]
      exact List.getD_eq_getElem s.source '\x00' hc
    have hq' : ∀ ch ∈ s.source.drop (s.current + 1), ch ≠ '"' := by
      intro ch hch
      exact hq ch (by rw [hdrop]; exact List.mem_cons_of_mem _ hch)
    rw [stringLoop, if_pos h]
    by_cases hn : s.peek = '\n'
    · rw [if_pos hn] at ih ⊢
      simp only [Scanner.advance] at ih ⊢
      rw [ih (by simpa using hc) (by simpa using hq')]
      have hcnt : (s.source.drop s.current).count '\n'
          = (s.source.drop (s.current + 1)).count '\n' + 1 := by
        rw [hdrop, List.count_cons]
        simp [← hpeek, hn]
      simp only [Scanner.mk.injEq, true_and]
      rw [hcnt]
      omega
    · rw [if_neg hn] at ih ⊢
      simp only [Scanner.advance] at ih ⊢
      rw [ih (by simpa using hc) (by simpa using hq')]
      have hcnt : (s.source.drop s.current).count '\n'
          = (s.source.drop (s.current + 1)).count '\n' := by
        rw [hdrop, List.count_cons]
        simp [← hpeek, hn]
      simp only [Scanner.mk.injEq, true_and]
      rw [hcnt]
  | case2 s h =>
    intro hle hq
    rw [stringLoop, if_neg h]
    have hcases : s.peek = '"' ∨ s.source.length ≤ s.current := by
      by_contra hcon
      push_neg at hcon
      apply h
      simp only [Scanner.isAtEnd, Bool.and_eq_true, Bool.not_eq_true',
        decide_eq_false_iff_not, ge_iff_le, not_le, bne_iff_ne]
      exact ⟨hcon.1, hcon.2⟩
    rcases hcases with hpk | hend
    · exfalso
      have hc : s.current < s.source.length := by
        by_contra hn2
        rw [Scanner.peek, List.getD_eq_default _ _ (Nat.le_of_not_lt hn2)] at hpk
        exact absurd hpk (by decide)
      have hdrop : s.source.drop s.current =
          s.source[s.current] :: s.source.drop (s.current + 1) :=
        List.drop_eq_getElem_cons hc
      have hpeek : s.peek = s.source[s.current] := by
        rw [Scanner.peek]
        exact List.getD_eq_getElem s.source '\x00' hc
      exact hq s.peek (by rw [hdrop, ← hpeek]; exact List.mem_cons_self _ _) hpk
    · have hdrop : s.source.drop s.current = [] := List.drop_eq_nil_of_le hend
      have hcur : s.current = s.source.length := le_antisymm hle hend
      rw [hdrop]
      cases s
      simp_all

/-- Claim C2, counterexample: for the source consisting of a double quote on
line 1 followed by "ab", a newline and "cd" (so the unterminated string
literal starts on line 1), `scan` reports the "Unterminated string." error at
line 2 — the line reached at end of input — not at line 1 where the string
started, contradicting the claim as stated. -/
theorem c2_unterminated_counterexample :
    scan "\"ab\ncd" = .error (.SyntaxError 2 "Unterminated string.") ∧
    scan "\"ab\ncd" ≠ .error (.SyntaxError 1 "Unterminated string.") := by
  refine ⟨scan_unterm_nl, ?_⟩
  rw [scan_unterm_nl]
  simp

/-- Claim C2 as amended: when `Scanner::string` scans a string literal that is
never closed before end of input, it fails with the "Unterminated string."
SyntaxError at the line reached at end of input, i.e. the line counter's value
plus the number of newlines inside the unterminated literal (for a literal
without embedded newlines this is the line the string started on, as in
`scan "\"abc"`). -/
theorem c2_unterminated_line_amended (s : Scanner)
    (hle : s.current ≤ s.source.length)
    (hq : ∀ ch ∈ s.source.drop s.current, ch ≠ '"') :
    Scanner.string s = .error (.SyntaxError
      (s.line + ((s.source.drop s.current).count '\n')) "Unterminated string.") ∧
    scan "\"abc" = .error (.SyntaxError 1 "Unterminated string.") ∧
    scan "\"ab\ncd" = .error (.SyntaxError 2 "Unterminated string.") := by
  refine ⟨?_, scan_unterm, scan_unterm_nl⟩
  rw [Scanner.string, stringLoop_noquote s hle hq]
  simp [Scanner.isAtEnd]

theorem c2_unterminated_line_amended_witness :
    Scanner.string { source := "\"abc".toList, start := 0, current := 1, line := 1 }
      = .error (.SyntaxError 1 "Unterminated string.") := by
  have h := (c2_unterminated_line_amended
    { source := "\"abc".toList, start := 0, current := 1, line := 1 }
    (by decide) (by decide)).1
  simpa using h

theorem getD_eq_headD_drop (l : List Char) (n : Nat) (d : Char) :
    l.getD n d = (l.drop n).headD d := by
  rw [List.getD_eq_getElem?_getD, List.headD_eq_head?_getD, List.head?_drop]

theorem digitLoop_digits (ds : List Char) : ∀ (s : Scanner) (rest : List Char),
    s.source.drop s.current = ds ++ rest →
    (∀ d ∈ ds, d.isDigit = true) →
    ((rest.headD '\x00').isDigit = false) →
    digitLoop s = { s with current := s.current + ds.length } := by
  induction ds with
  | nil =>
    intro s rest hdrop _ hrest
    rw [digitLoop, if_neg]
    · cases s
      simp
    · rw [Scanner.peek, getD_eq_headD_drop, hdrop]
      simp only [List.nil_append, List.headD_eq_head?_getD] at hrest ⊢
      simp [hrest]
  | cons d ds' ih =>
    intro s rest hdrop hds hrest
    have hpeek : s.peek = d := by
      rw [Scanner.peek, getD_eq_headD_drop, hdrop]
      rfl
    rw [digitLoop, if_pos (by rw [hpeek]; exact hds d (List.mem_cons_self d ds'))]
    have hdrop' : s.source.drop (s.current + 1) = ds' ++ rest := by
      have := List.tail_drop s.source s.current
      rw [hdrop] at this
      simpa using this.symm
    have := ih { s with current := s.current + 1 } rest (by simpa using hdrop')
      (fun x hx => hds x (List.mem_cons_of_mem d hx)) hrest
    rw [show ((s.advance).2) = { s with current := s.current + 1 } from by
      simp [Scanner.advance]]
    rw [this]
    simp only [Scanner.mk.injEq, List.length_cons, true_and, and_true]
    omega

theorem takeWhile_digit_prefix (as : List Char) : ∀ (rest : List Char),
    (∀ d ∈ as, d.isDigit = true) →
    ((rest.headD '\x00').isDigit = false) →
    (as ++ rest).takeWhile Char.isDigit = as ∧
    (as ++ rest).dropWhile Char.isDigit = rest := by
  induction as with
  | nil =>
    intro rest _ hrest
    cases rest with
    | nil => simp
    | cons r rs =>
      simp only [List.headD_cons] at hrest
      simp [List.takeWhile_cons, List.dropWhile_cons, hrest]
  | cons a as' ih =>
    intro rest has hrest
    have ha : a.isDigit = true := has a (List.mem_cons_self a as')
    have := ih rest (fun x hx => has x (List.mem_cons_of_mem a hx)) hrest
    simp [List.takeWhile_cons, List.dropWhile_cons, ha, this.1, this.2]

theorem parseNumber_int (cs : List Char) (hne : cs ≠ [])
    (h : ∀ d ∈ cs, d.isDigit = true) :
    parseNumber cs = some (digitsVal cs) := by
  have htw := takeWhile_digit_prefix cs [] h (by decide)
  rw [parseNumber]
  simp only [List.append_nil] at htw
  rw [htw.1, htw.2]
  simp [hne]

theorem parseNumber_frac (as bs : List Char) (ha : as ≠ []) (hb : bs ≠ [])
    (h1 : ∀ d ∈ as, d.isDigit = true) (h2 : ∀ d ∈ bs, d.isDigit = true) :
    parseNumber (as ++ '.' :: bs) =
      some ((digitsVal as : Rat) + (digitsVal bs : Rat) / (10 : Rat) ^ bs.length) := by
  have htw := takeWhile_digit_prefix as ('.' :: bs) h1 rfl
  rw [parseNumber, htw.1, htw.2]
  have hball : bs.all Char.isDigit = true := by
    rw [List.all_eq_true]
    exact h2
  simp [ha, hb, hball]

/-- Claim C8: `Scanner::number` consumes a maximal digit run, then consumes a
`'.'` only when the character after it is a digit (followed by a further
maximal digit run); a trailing `'.'` not followed by a digit is left
unconsumed, so scanning "123." yields a Number(123) token followed by a Dot
token. -/
theorem c8_number_maximal_run :
    (∀ (s : Scanner) (d0 : Char) (ds rest : List Char),
      s.source.drop s.start = d0 :: (ds ++ rest) →
      s.current = s.start + 1 →
      d0.isDigit = true →
      (∀ d ∈ ds, d.isDigit = true) →
      ((rest.headD '\x00').isDigit = false) →
      ¬((rest.headD '\x00') = '.' ∧ ((rest.drop 1).headD '\x00').isDigit = true) →
      Scanner.number s = .ok
        ({ ty := .Number (digitsVal (d0 :: ds)), lexeme := ⟨d0 :: ds⟩, line := s.line },
         { s with current := s.start + (d0 :: ds).length })) ∧
    (∀ (s : Scanner) (d0 : Char) (ds ds2 rest2 : List Char),
      s.source.drop s.start = d0 :: (ds ++ '.' :: (ds2 ++ rest2)) →
      s.current = s.start + 1 →
      d0.isDigit = true →
      (∀ d ∈ ds, d.isDigit = true) →
      ds2 ≠ [] →
      (∀ d ∈ ds2, d.isDigit = true) →
      ((rest2.headD '\x00').isDigit = false) →
      Scanner.number s = .ok
        ({ ty := .Number ((digitsVal (d0 :: ds) : Rat) + (digitsVal ds2 : Rat) / (10 : Rat) ^ ds2.length),
           lexeme := ⟨(d0 :: ds) ++ '.' :: ds2⟩, line := s.line },
         { s with current := s.start + (d0 :: ds).length + 1 + ds2.length })) ∧
    scan "123." = .ok [⟨.Number 123, "123", 1⟩, ⟨.Dot, ".", 1⟩, ⟨.Eof, "", 1⟩] := by
  refine ⟨?_, ?_, scan_num_dot⟩
  · intro s d0 ds rest hdrop0 hcur hd0 hds hrest hnodot
    have hdropc : s.source.drop s.current = ds ++ rest := by
      have ht := List.tail_drop s.source s.start
      rw [hdrop0] at ht
      rw [hcur]
      simpa using ht.symm
    have h1 := digitLoop_digits ds s rest hdropc hds hrest
    have hdrops1 : s.source.drop (s.current + ds.length) = rest := by
      calc s.source.drop (s.current + ds.length)
          = (s.source.drop s.current).drop ds.length := (List.drop_drop _ _ _).symm
        _ = (ds ++ rest).drop ds.length := by rw [hdropc]
        _ = rest := List.drop_left ds rest
    rw [Scanner.number, h1]
    rw [if_neg]
    · have hlex : Scanner.currentLexeme { s with current := s.current + ds.length }
          = ⟨d0 :: ds⟩ := by
        rw [Scanner.currentLexeme]
        dsimp only
        rw [hdrop0, hcur]
        have harith : s.start + 1 + ds.length - s.start = ds.length + 1 := by omega
        rw [harith, List.take_succ_cons, List.take_left]
      have hpn : parseNumber (String.mk (d0 :: ds)).toList
          = some ((digitsVal (d0 :: ds) : Rat)) := by
        rw [show (String.mk (d0 :: ds)).toList = d0 :: ds from rfl]
        exact parseNumber_int (d0 :: ds) (by simp)
          (by intro x hx
              rcases List.mem_cons.mp hx with h | h
              · rw [h]; exact hd0
              · exact hds x h)
      simp only [hlex, hpn, Scanner.token]
      simp only [Except.ok.injEq, Prod.mk.injEq, Token.mk.injEq, Scanner.mk.injEq,
        true_and, and_true, List.length_cons]
      omega
    · dsimp only
      intro hcond
      apply hnodot
      have hpeek1 : (Scanner.peek { s with current := s.current + ds.length })
          = rest.headD '\x00' := by
        rw [Scanner.peek]
        dsimp only
        rw [getD_eq_headD_drop, hdrops1]
      have hpeekN1 : (Scanner.peekNext { s with current := s.current + ds.length })
          = (rest.drop 1).headD '\x00' := by
        rw [Scanner.peekNext]
        dsimp only
        rw [getD_eq_headD_drop]
        have : s.source.drop (s.current + ds.length + 1) = rest.drop 1 := by
          calc s.source.drop (s.current + ds.length + 1)
              = (s.source.drop (s.current + ds.length)).drop 1 := (List.drop_drop _ _ _).symm
            _ = rest.drop 1 := by rw [hdrops1]
        rw [this]
      rw [hpeek1] at hcond
      rw [hpeekN1] at hcond
      exact hcond
  · intro s d0 ds ds2 rest2 hdrop0 hcur hd0 hds hne2 hds2 hrest2
    cases ds2 with
    | nil => exact absurd rfl hne2
    | cons e0 ds2' =>
    have hdropc : s.source.drop s.current = ds ++ '.' :: (e0 :: ds2' ++ rest2) := by
      have ht := List.tail_drop s.source s.start
      rw [hdrop0] at ht
      rw [hcur]
      simpa using ht.symm
    have h1 := digitLoop_digits ds s ('.' :: (e0 :: ds2' ++ rest2)) hdropc hds rfl
    have hdrops1 : s.source.drop (s.current + ds.length) = '.' :: (e0 :: ds2' ++ rest2) := by
      calc s.source.drop (s.current + ds.length)
          = (s.source.drop s.current).drop ds.length := (List.drop_drop _ _ _).symm
        _ = (ds ++ '.' :: (e0 :: ds2' ++ rest2)).drop ds.length := by rw [hdropc]
        _ = '.' :: (e0 :: ds2' ++ rest2) := List.drop_left ds _
    have hdrops2 : s.source.drop (s.current + ds.length + 1) = e0 :: ds2' ++ rest2 := by
      calc s.source.drop (s.current + ds.length + 1)
          = (s.source.drop (s.current + ds.length)).drop 1 := (List.drop_drop _ _ _).symm
        _ = e0 :: ds2' ++ rest2 := by rw [hdrops1]; rfl
    rw [Scanner.number, h1]
    rw [if_pos]
    · rw [show ((({ s with current := s.current + ds.length } : Scanner).advance).2)
          = { s with current := s.current + ds.length + 1 } from by simp [Scanner.advance]]
      have h2 := digitLoop_digits (e0 :: ds2') { s with current := s.current + ds.length + 1 }
        rest2 (by dsimp only; exact hdrops2) hds2 hrest2
      rw [h2]
      have hlex : Scanner.currentLexeme
          { s with current := s.current + ds.length + 1 + (e0 :: ds2').length }
          = ⟨(d0 :: ds) ++ '.' :: (e0 :: ds2')⟩ := by
        rw [Scanner.currentLexeme]
        dsimp only
        rw [hdrop0, hcur, List.length_cons]
        have harith : s.start + 1 + ds.length + 1 + (ds2'.length + 1) - s.start
            = (ds.length + (1 + (ds2'.length + 1))) + 1 := by omega
        rw [harith, List.take_succ_cons]
        rw [show ds.length + (1 + (ds2'.length + 1)) = ds.length + (ds2'.length + 2) from by omega]
        rw [List.take_append]
        rw [show ds2'.length + 2 = (ds2'.length + 1) + 1 from rfl, List.take_succ_cons]
        rw [show (e0 :: ds2' ++ rest2).take (ds2'.length + 1) = e0 :: ds2'
          from by simpa using List.take_left (e0 :: ds2') rest2]
        simp
      have hpn : parseNumber (String.mk ((d0 :: ds) ++ '.' :: (e0 :: ds2'))).toList
          = some ((digitsVal (d0 :: ds) : Rat)
              + (digitsVal (e0 :: ds2') : Rat) / (10 : Rat) ^ (e0 :: ds2').length) := by
        rw [show (String.mk ((d0 :: ds) ++ '.' :: (e0 :: ds2'))).toList
          = (d0 :: ds) ++ '.' :: (e0 :: ds2') from rfl]
        exact parseNumber_frac (d0 :: ds) (e0 :: ds2') (by simp) (by simp)
          (by intro x hx
              rcases List.mem_cons.mp hx with h | h
              · rw [h]; exact hd0
              · exact hds x h)
          hds2
      simp only [hlex, hpn, Scanner.token]
      simp only [Except.ok.injEq, Prod.mk.injEq, Token.mk.injEq, Scanner.mk.injEq,
        true_and, and_true, List.length_cons]
      omega
    · dsimp only
      constructor
      · rw [Scanner.peek]
        dsimp only
        rw [getD_eq_headD_drop, hdrops1]
        rfl
      · rw [Scanner.peekNext]
        dsimp only
        rw [getD_eq_headD_drop, hdrops2]
        exact hds2 e0 (List.mem_cons_self e0 ds2')

theorem c8_number_maximal_run_witness :
    Scanner.number { source := "12x".toList, start := 0, current := 1, line := 1 }
      = .ok ({ ty := .Number 12, lexeme := "12", line := 1 },
             { source := "12x".toList, start := 0, current := 2, line := 1 }) := by
  have h := c8_number_maximal_run.1
    { source := "12x".toList, start := 0, current := 1, line := 1 }
    '1' ['2'] ['x'] (by decide) rfl (by decide) (by decide) (by decide) (by decide)
  have h12 : ((digitsVal ['1', '2'] : Rat)) = 12 := by decide
  simp only [h12] at h
  convert h using 2

theorem check_sound {toks : List Token} {c : Nat} {ty : TokenType}
    (h : Parser.check toks c ty = true) :
    ∃ tk, toks[c]? = some tk ∧ tk.ty.matches ty = true := by
  rw [Parser.check] at h
  split at h
  · exact absurd h (by simp)
  · rcases hp : Parser.peek toks c with _ | t
    · rw [hp] at h
      exact absurd h (by simp)
    · rw [hp] at h
      exact ⟨t, hp, h⟩

theorem matchesAdv_sound {toks : List Token} {c : Nat} {tys : List TokenType}
    {q : {c' : Nat // c < c' ∧ c' ≤ toks.length}}
    (h : Parser.matchesAdv toks c tys = some q) :
    q.1 = c + 1 ∧ ∃ tk, toks[c]? = some tk ∧ (tys.any fun ty => tk.ty.matches ty) = true := by
  rw [Parser.matchesAdv] at h
  split at h
  next hany =>
    simp only [Option.some.injEq] at h
    obtain ⟨ty, hmem, hty⟩ := List.any_eq_true.mp hany
    obtain ⟨tk, htk, hm⟩ := check_sound hty
    refine ⟨?_, tk, htk, List.any_eq_true.mpr ⟨ty, hmem, hm⟩⟩
    rw [← h]
    exact check_advancePos hty
  next => exact absurd h (by simp)

theorem expectTok_at {toks : List Token} {c : Nat} {tk : Token}
    (htk : toks[c]? = some tk) : expectTok (Parser.previous toks (c + 1)) = tk := by
  rw [Parser.previous]
  simp only [Nat.add_sub_cancel]
  rw [htk]
  rfl

theorem matched_op_prop {toks : List Token} {c : Nat} {tys : List TokenType}
    {q : {c' : Nat // c < c' ∧ c' ≤ toks.length}} (f : TokenType → Bool)
    (h : Parser.matchesAdv toks c tys = some q)
    (hops : ∀ t : TokenType, (tys.any fun ty => t.matches ty) = true → f t = true) :
    f (expectTok (Parser.previous toks q.1)).ty = true := by
  obtain ⟨hq, tk, htk, hany⟩ := matchesAdv_sound h
  rw [hq, expectTok_at htk]
  exact hops tk.ty hany

theorem binOp_any_eqlist (t : TokenType)
    (h : ([TokenType.BangEqual, TokenType.EqualEqual].any fun ty => t.matches ty) = true) :
    binOpOK t = true := by
  cases t <;> simp_all [TokenType.matches, TokenType.discr, binOpOK]

theorem binOp_any_cmplist (t : TokenType)
    (h : ([TokenType.Greater, TokenType.GreaterEqual, TokenType.Less,
        TokenType.LessEqual].any fun ty => t.matches ty) = true) :
    binOpOK t = true := by
  cases t <;> simp_all [TokenType.matches, TokenType.discr, binOpOK]

theorem binOp_any_termlist (t : TokenType)
    (h : ([TokenType.Minus, TokenType.Plus].any fun ty => t.matches ty) = true) :
    binOpOK t = true := by
  cases t <;> simp_all [TokenType.matches, TokenType.discr, binOpOK]

theorem binOp_any_factorlist (t : TokenType)
    (h : ([TokenType.Slash, TokenType.Star].any fun ty => t.matches ty) = true) :
    binOpOK t = true := by
  cases t <;> simp_all [TokenType.matches, TokenType.discr, binOpOK]

theorem unOp_any_list (t : TokenType)
    (h : ([TokenType.Bang, TokenType.Minus].any fun ty => t.matches ty) = true) :
    unOpOK t = true := by
  cases t <;> simp_all [TokenType.matches, TokenType.discr, unOpOK]

theorem lit_any_list (t : TokenType)
    (h : ([TokenType.False, TokenType.True, TokenType.Nil, TokenType.Number 0,
        TokenType.String ""].any fun ty => t.matches ty) = true) :
    litOK t = true := by
  cases t <;> simp_all [TokenType.matches, TokenType.discr, litOK]

theorem expression_exprOK (toks : List Token) :
    ∀ (c : Nat) (e : Expr) (p : {c' : Nat // c ≤ c'}),
      Parser.expression toks c = .ok (e, p) → exprOK e = true := by
  refine (Parser.expression.mutual_induct toks
    (fun c => ∀ e p, Parser.expression toks c = .ok (e, p) → exprOK e = true)
    (fun c => ∀ e p, Parser.equality toks c = .ok (e, p) → exprOK e = true)
    (fun expr c => exprOK expr = true →
      ∀ e p, Parser.equalityLoop toks expr c = .ok (e, p) → exprOK e = true)
    (fun c => ∀ e p, Parser.comparison toks c = .ok (e, p) → exprOK e = true)
    (fun expr c => exprOK expr = true →
      ∀ e p, Parser.comparisonLoop toks expr c = .ok (e, p) → exprOK e = true)
    (fun c => ∀ e p, Parser.term toks c = .ok (e, p) → exprOK e = true)
    (fun expr c => exprOK expr = true →
      ∀ e p, Parser.termLoop toks expr c = .ok (e, p) → exprOK e = true)
    (fun c => ∀ e p, Parser.factor toks c = .ok (e, p) → exprOK e = true)
    (fun expr c => exprOK expr = true →
      ∀ e p, Parser.factorLoop toks expr c = .ok (e, p) → exprOK e = true)
    (fun c => ∀ e p, Parser.unary toks c = .ok (e, p) → exprOK e = true)
    (fun c => ∀ e p, Parser.primary toks c = .ok (e, p) → exprOK e = true)
    ?_ ?_ ?_ ?_ ?_ ?_ ?_ ?_ ?_ ?_ ?_ ?_ ?_ ?_ ?_ ?_ ?_ ?_ ?_ ?_ ?_ ?_ ?_ ?_
    ?_ ?_ ?_ ?_ ?_ ?_ ?_ ?_ ?_ ?_ ?_ ?_ ?_).1
  · intro c ih e p heq
    rw [Parser.expression] at heq
    exact ih e p heq
  · intro c err herr _ e p heq
    simp only [Parser.equality, herr] at heq
    exact absurd heq (by simp)
  · intro c e2 c2 h2 hcomp err hloop _ _ e p heq
    simp only [Parser.equality, hcomp, hloop] at heq
    exact absurd heq (by simp)
  · intro c e2 c2 h2 hcomp e3 c3 h3 hloop ih1 ih2 e p heq
    simp only [Parser.equality, hcomp, hloop, Except.ok.injEq, Prod.mk.injEq] at heq
    rw [← heq.1]
    exact ih2 (ih1 e2 ⟨c2, h2⟩ hcomp) e3 ⟨c3, h3⟩ hloop
  · intro expr c c1 h1 hm err herr _ hx e p heq
    simp only [Parser.equalityLoop, hm, herr] at heq
    exact absurd heq (by simp)
  · intro expr c c1 h1 hm operator e2 c2 h2 hcomp err hrec _ _ hx e p heq
    simp only [Parser.equalityLoop, hm, hcomp, hrec] at heq
    exact absurd heq (by simp)
  · intro expr c c1 h1 hm operator e2 c2 h2 hcomp e3 c3 h3 hrec ih1 ih2 hx e p heq
    simp only [Parser.equalityLoop, hm, hcomp, hrec, Except.ok.injEq, Prod.mk.injEq] at heq
    rw [← heq.1]
    refine ih2 ?_ e3 ⟨c3, h3⟩ hrec
    simp only [exprOK, Bool.and_eq_true]
    exact ⟨⟨matched_op_prop binOpOK hm binOp_any_eqlist, hx⟩, ih1 e2 ⟨c2, h2⟩ hcomp⟩
  · intro expr c hm hx e p heq
    simp only [Parser.equalityLoop, hm, Except.ok.injEq, Prod.mk.injEq] at heq
    rw [← heq.1]
    exact hx
  · intro c err herr _ e p heq
    simp only [Parser.comparison, herr] at heq
    exact absurd heq (by simp)
  · intro c e2 c2 h2 hcomp err hloop _ _ e p heq
    simp only [Parser.comparison, hcomp, hloop] at heq
    exact absurd heq (by simp)
  · intro c e2 c2 h2 hcomp e3 c3 h3 hloop ih1 ih2 e p heq
    simp only [Parser.comparison, hcomp, hloop, Except.ok.injEq, Prod.mk.injEq] at heq
    rw [← heq.1]
    exact ih2 (ih1 e2 ⟨c2, h2⟩ hcomp) e3 ⟨c3, h3⟩ hloop
  · intro expr c c1 h1 hm err herr _ hx e p heq
    simp only [Parser.comparisonLoop, hm, herr] at heq
    exact absurd heq (by simp)
  · intro expr c c1 h1 hm operator e2 c2 h2 hcomp err hrec _ _ hx e p heq
    simp only [Parser.comparisonLoop, hm, hcomp, hrec] at heq
    exact absurd heq (by simp)
  · intro expr c c1 h1 hm operator e2 c2 h2 hcomp e3 c3 h3 hrec ih1 ih2 hx e p heq
    simp only [Parser.comparisonLoop, hm, hcomp, hrec, Except.ok.injEq, Prod.mk.injEq] at heq
    rw [← heq.1]
    refine ih2 ?_ e3 ⟨c3, h3⟩ hrec
    simp only [exprOK, Bool.and_eq_true]
    exact ⟨⟨matched_op_prop binOpOK hm binOp_any_cmplist, hx⟩, ih1 e2 ⟨c2, h2⟩ hcomp⟩
  · intro expr c hm hx e p heq
    simp only [Parser.comparisonLoop, hm, Except.ok.injEq, Prod.mk.injEq] at heq
    rw [← heq.1]
    exact hx
  · intro c err herr _ e p heq
    simp only [Parser.term, herr] at heq
    exact absurd heq (by simp)
  · intro c e2 c2 h2 hcomp err hloop _ _ e p heq
    simp only [Parser.term, hcomp, hloop] at heq
    exact absurd heq (by simp)
  · intro c e2 c2 h2 hcomp e3 c3 h3 hloop ih1 ih2 e p heq
    simp only [Parser.term, hcomp, hloop, Except.ok.injEq, Prod.mk.injEq] at heq
    rw [← heq.1]
    exact ih2 (ih1 e2 ⟨c2, h2⟩ hcomp) e3 ⟨c3, h3⟩ hloop
  · intro expr c c1 h1 hm err herr _ hx e p heq
    simp only [Parser.termLoop, hm, herr] at heq
    exact absurd heq (by simp)
  · intro expr c c1 h1 hm operator e2 c2 h2 hcomp err hrec _ _ hx e p heq
    simp only [Parser.termLoop, hm, hcomp, hrec] at heq
    exact absurd heq (by simp)
  · intro expr c c1 h1 hm operator e2 c2 h2 hcomp e3 c3 h3 hrec ih1 ih2 hx e p heq
    simp only [Parser.termLoop, hm, hcomp, hrec, Except.ok.injEq, Prod.mk.injEq] at heq
    rw [← heq.1]
    refine ih2 ?_ e3 ⟨c3, h3⟩ hrec
    simp only [exprOK, Bool.and_eq_true]
    exact ⟨⟨matched_op_prop binOpOK hm binOp_any_termlist, hx⟩, ih1 e2 ⟨c2, h2⟩ hcomp⟩
  · intro expr c hm hx e p heq
    simp only [Parser.termLoop, hm, Except.ok.injEq, Prod.mk.injEq] at heq
    rw [← heq.1]
    exact hx
  · intro c err herr _ e p heq
    simp only [Parser.factor, herr] at heq
    exact absurd heq (by simp)
  · intro c e2 c2 h2 hcomp err hloop _ _ e p heq
    simp only [Parser.factor, hcomp, hloop] at heq
    exact absurd heq (by simp)
  · intro c e2 c2 h2 hcomp e3 c3 h3 hloop ih1 ih2 e p heq
    simp only [Parser.factor, hcomp, hloop, Except.ok.injEq, Prod.mk.injEq] at heq
    rw [← heq.1]
    exact ih2 (ih1 e2 ⟨c2, h2⟩ hcomp) e3 ⟨c3, h3⟩ hloop
  · intro expr c c1 h1 hm err herr _ hx e p heq
    simp only [Parser.factorLoop, hm, herr] at heq
    exact absurd heq (by simp)
  · intro expr c c1 h1 hm operator e2 c2 h2 hcomp err hrec _ _ hx e p heq
    simp only [Parser.factorLoop, hm, hcomp, hrec] at heq
    exact absurd heq (by simp)
  · intro expr c c1 h1 hm operator e2 c2 h2 hcomp e3 c3 h3 hrec ih1 ih2 hx e p heq
    simp only [Parser.factorLoop, hm, hcomp, hrec, Except.ok.injEq, Prod.mk.injEq] at heq
    rw [← heq.1]
    refine ih2 ?_ e3 ⟨c3, h3⟩ hrec
    simp only [exprOK, Bool.and_eq_true]
    exact ⟨⟨matched_op_prop binOpOK hm binOp_any_factorlist, hx⟩, ih1 e2 ⟨c2, h2⟩ hcomp⟩
  · intro expr c hm hx e p heq
    simp only [Parser.factorLoop, hm, Except.ok.injEq, Prod.mk.injEq] at heq
    rw [← heq.1]
    exact hx
  · intro c c1 h1 hm err herr _ e p heq
    simp only [Parser.unary, hm, herr] at heq
    exact absurd heq (by simp)
  · intro c c1 h1 hm r c2 h2 hrec ih e p heq
    simp only [Parser.unary, hm, hrec, Except.ok.injEq, Prod.mk.injEq] at heq
    rw [← heq.1]
    simp only [exprOK, Bool.and_eq_true]
    exact ⟨matched_op_prop unOpOK hm unOp_any_list, ih r ⟨c2, h2⟩ hrec⟩
  · intro c hm ih e p heq
    simp only [Parser.unary, hm] at heq
    exact ih e p heq
  · intro c c1 h1 hm e p heq
    simp only [Parser.primary, hm, Except.ok.injEq, Prod.mk.injEq] at heq
    rw [← heq.1]
    simp only [exprOK]
    exact matched_op_prop litOK hm lit_any_list
  · intro c hm1 c1 h1 hm2 err herr _ e p heq
    simp only [Parser.primary, hm1, hm2, herr] at heq
    exact absurd heq (by simp)
  · intro c hm1 c1 h1 hm2 e2 c2 h2 hexp err hcons _ e p heq
    simp only [Parser.primary, hm1, hm2, hexp, hcons] at heq
    exact absurd heq (by simp)
  · intro c hm1 c1 h1 hm2 e2 c2 h2 hexp c3 h3 hcons ih e p heq
    simp only [Parser.primary, hm1, hm2, hexp, hcons, Except.ok.injEq, Prod.mk.injEq] at heq
    rw [← heq.1]
    simp only [exprOK]
    exact ih e2 ⟨c2, h2⟩ hexp
  · intro c hm1 hm2 e p heq
    simp only [Parser.primary, hm1, hm2] at heq
    exact absurd heq (by simp)

theorem evaluate_no_invalid : ∀ (e : Expr), exprOK e = true →
    ∀ m, evaluate e ≠ .invalid m := by
  intro e
  induction e with
  | binary l op r ihl ihr =>
    intro hok m
    simp only [exprOK, Bool.and_eq_true] at hok
    obtain ⟨⟨hop, hl⟩, hr⟩ := hok
    simp only [evaluate]
    cases hevl : evaluate l with
    | ok v =>
      simp only [EvalResult.andThen]
      cases hevr : evaluate r with
      | ok w =>
        simp only [EvalResult.andThen]
        cases hty : op.ty <;> simp [binOpOK, hty] at hop <;>
          first
          | (intro hcon
             rcases hd1 : v.into_double op.line with d | a
             · simp [liftE, hd1] at hcon
             · rcases hd2 : w.into_double op.line with d | b <;>
                 simp [liftE, hd1, hd2] at hcon)
          | (cases v <;> cases w <;> intro hcon <;> simp at hcon)
      | err er => simp [EvalResult.andThen]
      | invalid m' => exact absurd hevr (ihr hr m')
    | err er => simp [EvalResult.andThen]
    | invalid m' => exact absurd hevl (ihl hl m')
  | grouping e ih =>
    intro hok m
    simp only [exprOK] at hok
    simp only [evaluate]
    exact ih hok m
  | literal t =>
    intro hok m
    simp only [exprOK] at hok
    simp only [evaluate]
    cases hty : t.ty <;> simp [litOK, hty] at hok <;> simp
  | unary op r ih =>
    intro hok m
    simp only [exprOK, Bool.and_eq_true] at hok
    obtain ⟨hop, hr⟩ := hok
    simp only [evaluate]
    cases hevr : evaluate r with
    | ok v =>
      simp only [EvalResult.andThen]
      cases hty : op.ty <;> simp [unOpOK, hty] at hop <;>
        first
        | (intro hcon
           rcases hd1 : v.into_double op.line with d | a <;> simp [liftE, hd1] at hcon)
    | err er => simp [EvalResult.andThen]
    | invalid m' => exact absurd hevr (ih hr m')

/-- Claim C9: an expression produced by a successful parse of a successful
scan's tokens has all its Binary operators among the ten handled kinds, its
Unary operators among `!`/`-`, and its Literal tokens among
number/string/true/false/nil (`exprOK`); consequently `evaluate` never reaches
one of its defensive `panic!` branches on such a tree. -/
theorem c9_no_panic_branches : ∀ (src : Str) (toks : List Token) (e : Expr),
    scan src = .ok toks → Parser.parse toks = .ok e →
    exprOK e = true ∧ ∀ m, evaluate e ≠ .invalid m := by
  intro src toks e _ hparse
  rw [Parser.parse] at hparse
  rcases hexp : Parser.expression toks 0 with er | ⟨e2, p⟩
  · rw [hexp] at hparse
    exact absurd hparse (by simp [Except.map])
  · rw [hexp] at hparse
    simp only [Except.map, Except.ok.injEq] at hparse
    have hok : exprOK e = true := by
      rw [← hparse]
      exact expression_exprOK toks 0 e2 p hexp
    exact ⟨hok, evaluate_no_invalid e hok⟩

theorem c9_no_panic_branches_witness :
    exprOK (.binary (.binary (.literal ⟨.Number 1, "1", 1⟩) ⟨.Minus, "-", 1⟩
      (.literal ⟨.Number 2, "2", 1⟩)) ⟨.Minus, "-", 1⟩ (.literal ⟨.Number 3, "3", 1⟩)) = true ∧
    ∀ m, evaluate (.binary (.binary (.literal ⟨.Number 1, "1", 1⟩) ⟨.Minus, "-", 1⟩
      (.literal ⟨.Number 2, "2", 1⟩)) ⟨.Minus, "-", 1⟩ (.literal ⟨.Number 3, "3", 1⟩))
      ≠ .invalid m :=
  c9_no_panic_branches "1 - 2 - 3" [⟨.Number 1, "1", 1⟩, ⟨.Minus, "-", 1⟩,
    ⟨.Number 2, "2", 1⟩, ⟨.Minus, "-", 1⟩, ⟨.Number 3, "3", 1⟩, ⟨.Eof, "", 1⟩]
    (.binary (.binary (.literal ⟨.Number 1, "1", 1⟩) ⟨.Minus, "-", 1⟩
      (.literal ⟨.Number 2, "2", 1⟩)) ⟨.Minus, "-", 1⟩ (.literal ⟨.Number 3, "3", 1⟩))
    scan_sub_chain parse_sub_chain
